import Mathlib

/-!
Verification development for the scrapyard per-feed fetch/refresh subsystem.

The Rust source (src/options/feeds.rs, src/bindings/pseudoitem.rs,
src/bindings/itemizer.rs, src/options/fetched.rs, src/options/master.rs,
src/locks.rs) is shallowly embedded below.  Side-effecting interactions
(HTTP GET, subprocess invocation, RFC-2822 parsing, file IO outcomes) are
abstracted as explicit environment parameters; all machine integers are
Nat with explicit wrap where a Rust cast occurs.
-/

namespace Scrapyard

/-- Result of a fallible Rust operation with the error payload erased
(models `Result<T, Box<dyn Error>>`). -/
inductive Res (α : Type) where
  | ok (val : α)
  | err
deriving DecidableEq, Repr

/-- Embeds `rss::Category` via `PseudoCategory` (pseudoitem.rs). -/
structure PseudoCategory where
  name : String
  domain : Option String
deriving DecidableEq, Repr

/-- Embeds `PseudoEnclosure` (pseudoitem.rs). -/
structure PseudoEnclosure where
  url : String
  length : String
  mime_type : String
deriving DecidableEq, Repr

/-- Embeds `PseudoGuid` (pseudoitem.rs). -/
structure PseudoGuid where
  value : String
  permalink : Bool
deriving DecidableEq, Repr

/-- Embeds `PseudoSource` (pseudoitem.rs). -/
structure PseudoSource where
  url : String
  title : Option String
deriving DecidableEq, Repr

/-- Embeds `PseudoCloud` (pseudoitem.rs). -/
structure PseudoCloud where
  domain : String
  port : String
  path : String
  register_procedure : String
  protocol : String
deriving DecidableEq, Repr

/-- Embeds `PseudoImage` (pseudoitem.rs). -/
structure PseudoImage where
  url : String
  title : String
  link : String
  width : Option String
  height : Option String
  description : Option String
deriving DecidableEq, Repr

/-- Embeds `PseudoTextInput` (pseudoitem.rs). -/
structure PseudoTextInput where
  title : String
  description : String
  name : String
  link : String
deriving DecidableEq, Repr

/-- Embeds `PseudoItem` (pseudoitem.rs).  `timestamp` is a Rust `u64`,
modelled as Nat. -/
structure PseudoItem where
  title : Option String := none
  link : Option String := none
  description : Option String := none
  author : Option String := none
  categories : Option (List PseudoCategory) := none
  comments : Option String := none
  enclosure : Option PseudoEnclosure := none
  guid : Option PseudoGuid := none
  pub_date : Option String := none
  timestamp : Option Nat := none
  source : Option PseudoSource := none
  content : Option String := none
deriving DecidableEq, Repr

/-- Embeds `impl PartialEq for PseudoItem` (pseudoitem.rs lines 161-166):
`(self.link.is_some() && self.link == other.link) ||
 (self.title.is_some() && self.title == other.title)`. -/
def pseudoItemEq (a b : PseudoItem) : Bool :=
  (a.link.isSome && decide (a.link = b.link))
    || (a.title.isSome && decide (a.title = b.title))

/-- Embeds `PseudoChannel` (pseudoitem.rs). -/
structure PseudoChannel where
  title : String := ""
  link : String := ""
  description : String := ""
  language : Option String := none
  copyright : Option String := none
  managing_editor : Option String := none
  webmaster : Option String := none
  pub_date : Option String := none
  last_build_date : Option String := none
  categories : Option (List PseudoCategory) := none
  generator : Option String := none
  docs : Option String := none
  cloud : Option PseudoCloud := none
  rating : Option String := none
  ttl : Option String := none
  image : Option PseudoImage := none
  text_input : Option PseudoTextInput := none
  skip_hours : Option (List String) := none
  skip_days : Option (List String) := none
  items : Option (List PseudoItem) := none
deriving DecidableEq, Repr

/-- Embeds `PseudoChannel::with_items` (pseudoitem.rs). -/
def PseudoChannel.with_items (c : PseudoChannel) (items : List PseudoItem) :
    PseudoChannel :=
  { c with items := some items }

/-- Embeds `FeedOption` (feeds.rs lines 96-133); the channel metadata is
kept as a nested field (serde flattening does not affect semantics). -/
structure FeedOption where
  origin : String := "https://feeds.bbci.co.uk/news/world/rss.xml"
  label : String := "default-feed-name"
  max_length : Nat := 50
  fetch_length : Nat := 10
  interval : Nat := 3600
  idle_limit : Nat := 172800
  sort : Bool := true
  extractor : List String := ["/usr/bin/node", "/path/to/script.js"]
  fetch : Bool := true
  channel : PseudoChannel := {}
deriving DecidableEq, Repr

/-- Embeds `FetchedMeta` (fetched.rs). -/
structure FetchedMeta where
  last_fetch : Nat := 0
  last_requested : Nat := 0
deriving DecidableEq, Repr

/-- Embeds `FetchedMeta::fetched` with the wall clock passed explicitly. -/
def metaFetched (now : Nat) (m : FetchedMeta) : FetchedMeta :=
  { m with last_fetch := now }

/-- Embeds `FetchedMeta::requested` with the wall clock passed explicitly. -/
def metaRequested (now : Nat) (m : FetchedMeta) : FetchedMeta :=
  { m with last_requested := now }

/-- Embeds `MasterConfig` (master.rs); the store path is irrelevant to the
claims and omitted. -/
structure MasterConfig where
  max_retries : Nat := 3
  request_timeout : Nat := 20
  script_timeout : Nat := 20
deriving DecidableEq, Repr

/-- Embeds `FeedOption::outdated` (feeds.rs line 309):
`meta.last_fetch + self.interval < now`. -/
def FeedOption.outdated (feed : FeedOption) (meta : FetchedMeta) (now : Nat) :
    Bool :=
  meta.last_fetch + feed.interval < now

/-- Embeds `FeedOption::idle` (feeds.rs line 319):
`meta.last_requested + self.idle_limit < now`. -/
def FeedOption.idle (feed : FeedOption) (meta : FetchedMeta) (now : Nat) :
    Bool :=
  meta.last_requested + feed.idle_limit < now

/-- Embeds `FeedOption::time_til_outdated` (feeds.rs line 314):
`(last_fetch + interval).checked_sub(now)`. -/
def FeedOption.time_til_outdated (feed : FeedOption) (meta : FetchedMeta)
    (now : Nat) : Option Nat :=
  if now ≤ meta.last_fetch + feed.interval then
    some (meta.last_fetch + feed.interval - now)
  else none

/-- Rust `as u64` cast of an `i64` unix timestamp (two's complement). -/
def u64OfInt (i : Int) : Nat :=
  (i % ((2 : Int) ^ 64)).toNat

/-- Embeds the timestamp-derivation pass of `fetch_items_return` /
`fetch_items_noreturn` (feeds.rs lines 385-396 and 478-489): items that
already carry a timestamp are untouched; otherwise, when `pub_date` is
present and RFC-2822 parsing succeeds, the parsed seconds are stored with
the source's `as u64` cast.  The parser is the abstract parameter
`parse` (it models `DateTime::parse_from_rfc2822(..).timestamp()`). -/
def deriveTimestamp (parse : String → Option Int) (it : PseudoItem) :
    PseudoItem :=
  if it.timestamp.isSome then it
  else
    match it.pub_date with
    | none => it
    | some pd =>
      match parse pd with
      | none => it
      | some d => { it with timestamp := some (u64OfInt d) }

/-- The merged list before sorting and trimming (feeds.rs lines 385-397):
the derived fresh items followed by the prior cache. -/
def mergedOf (parse : String → Option Int) (fresh existing : List PseudoItem) :
    List PseudoItem :=
  fresh.map (deriveTimestamp parse) ++ existing

/-- Embeds the comparison `Option<u64>` uses under `Ord` in Rust:
`None` is smaller than every `Some`. -/
def optLe : Option Nat → Option Nat → Bool
  | none, _ => true
  | some _, none => false
  | some a, some b => a ≤ b

/-- Embeds the sort comparator (feeds.rs line 399):
`items.sort_by(|item, other| other.timestamp.cmp(&item.timestamp))`,
i.e. `a` may precede `b` exactly when `b.timestamp ≤ a.timestamp`
(descending, absent timestamps smallest hence last). -/
def itemLe (a b : PseudoItem) : Bool :=
  optLe b.timestamp a.timestamp

/-- Embeds the merge-sort-trim tail of both pipeline entry points
(feeds.rs lines 385-404 / 478-497): derive timestamps on the fresh
items, append the prior cache, stable-sort descending when `feed.sort`,
and drop the tail beyond `max_length`.  Rust `Vec::sort_by` is a stable
sort, embedded as `List.mergeSort`. -/
def mergeTrim (parse : String → Option Int) (feed : FeedOption)
    (fresh existing : List PseudoItem) : List PseudoItem :=
  let items := mergedOf parse fresh existing
  let items := if feed.sort then items.mergeSort itemLe else items
  if feed.max_length < items.length then items.take feed.max_length else items

/-- Embeds `ItemizerArg` (itemizer.rs); `length_left` is a Rust `u32`. -/
structure ItemizerArg where
  url : String
  webstr : Option String
  preexists : List PseudoItem
  length_left : Nat
  feed : FeedOption
deriving DecidableEq, Repr

/-- Abstract environment for one pipeline run, indexed by hop number:
`get k` is the outcome of the HTTP GET of hop `k` (consulted only when
`feed.fetch`); `extract k` is the combined outcome of spawning the
extractor and parsing its stdout on hop `k` (`err` covers both the
subprocess-wait timeout and deserialisation failure); `parse` models the
RFC-2822 parser. -/
structure FetchEnv where
  get : Nat → Res String
  extract : Nat → Res (List PseudoItem × Option String)
  parse : String → Option Int

/-- Outcome of one call to the recursive extractor runner: the final
items buffer (on success), the argument records written to `args.json`
in order (one per extractor invocation), and the next hop index. -/
structure RecurseOut where
  result : Res (List PseudoItem)
  args : List ItemizerArg
  next : Nat
deriving DecidableEq, Repr

/-- The `webstr` step of one hop (feeds.rs lines 526-537): when
`feed.fetch`, the body of the HTTP GET (whose failure or timeout aborts
the attempt before `args.json` is written and before the subprocess is
spawned); otherwise `None`. -/
def webstrStep (feed : FeedOption) (env : FetchEnv) (k : Nat) :
    Res (Option String) :=
  if feed.fetch then
    match env.get k with
    | .ok s => .ok (some s)
    | .err => .err
  else .ok none

/-- Embeds `FeedOption::fetch_items_recurse` (feeds.rs lines 513-635),
with `fuel` making the unbounded recursion total (`none` = the source
recursion does not return within `fuel` hops).  Per hop: perform
`webstrStep` (a failure aborts the attempt before the extractor is
invoked), build the argument record with `preexists = original ++ items`
and `lengthLeft = (fetch_length - items.len()) as u32`, invoke the
extractor, extend the buffer with the reply's items, succeed once
`items.len() >= max_length`, otherwise follow the continuation. -/
def fetchItemsRecurse (feed : FeedOption) (env : FetchEnv) :
    Nat → List PseudoItem → List PseudoItem → String → Nat → Nat →
    Option RecurseOut
  | 0, _, _, _, _, _ => none
  | fuel + 1, items, original, url, fl, k =>
    match webstrStep feed env k with
    | .err => some ⟨.err, [], k + 1⟩
    | .ok webstr =>
      let arg : ItemizerArg :=
        ⟨url, webstr, original ++ items, (fl - items.length) % 4294967296,
          feed⟩
      match env.extract k with
      | .err => some ⟨.err, [arg], k + 1⟩
      | .ok (newItems, cont) =>
        let items2 := items ++ newItems
        if feed.max_length ≤ items2.length then some ⟨.ok items2, [arg], k + 1⟩
        else
          match cont with
          | some c =>
            match fetchItemsRecurse feed env fuel items2 original c fl
                (k + 1) with
            | none => none
            | some out => some ⟨out.result, arg :: out.args, out.next⟩
          | none => some ⟨.ok items2, [arg], k + 1⟩

/-- Embeds the retry loop of both pipeline entry points (feeds.rs lines
361-383 / 454-476): up to `n` attempts, each starting from an empty
buffer; the buffer is cleared after every failed attempt, so the loop
yields the successful attempt's items or `[]` when all attempts failed.
Returns the items, the concatenated argument records of all attempts,
and the number of attempts made. -/
def retryLoopAux (feed : FeedOption) (env : FetchEnv)
    (original : List PseudoItem) (fl : Nat) (fuel : Nat) :
    Nat → Nat → Option (List PseudoItem × List ItemizerArg × Nat)
  | 0, _ => some ([], [], 0)
  | n + 1, k =>
    match fetchItemsRecurse feed env fuel [] original feed.origin fl k with
    | none => none
    | some out =>
      match out.result with
      | .ok its => some (its, out.args, 1)
      | .err =>
        match retryLoopAux feed env original fl fuel n out.next with
        | none => none
        | some (its, args, att) => some (its, out.args ++ args, att + 1)

/-- The on-disk state of `cache.json` at the start of a refresh. -/
inductive CacheFile where
  | missing
  | corrupt
  | good (items : List PseudoItem)
deriving DecidableEq, Repr

/-- Filesystem-visible actions of the cache-load step. -/
inductive CacheAction where
  | logCorrupt
  | renameCorrupt
deriving DecidableEq, Repr

/-- Embeds the cache-load step of both pipeline entry points (feeds.rs
lines 341-349 / 434-442): a missing file yields the default empty cache;
a file that fails to deserialize yields the default empty cache and a
log message (the message claims the old file was moved, but the source
performs no rename: the closure computes `new_path` and prints, nothing
else). -/
def loadCacheStep : CacheFile → List PseudoItem × List CacheAction
  | .missing => ([], [])
  | .corrupt => ([], [.logCorrupt])
  | .good l => (l, [])

/-- Modelled from the spec: the salvage behaviour of section 4.1, which
the source lacks — on corruption, `cache.json` is renamed to
`cache-<RFC-3339 timestamp>.json` (so it remains on disk) and processing
continues from an empty cache. -/
def loadCacheStepSpec : CacheFile → List PseudoItem × List CacheAction
  | .missing => ([], [])
  | .corrupt => ([], [.renameCorrupt])
  | .good l => (l, [])

/-- Embeds the content-clearing map applied to the prior cache before it
is handed to the extractor as `preexists` (feeds.rs lines 368-371 /
461-464): the item with its `content` field set to `None`. -/
def clearContent (it : PseudoItem) : PseudoItem :=
  { it with content := none }

/-- Embeds the effective quota computation (feeds.rs lines 352-359 /
445-452):
`min(max_length, max((now - last_fetch + 1) / interval * fetch_length,
fetch_length))` in u64 arithmetic; u64 underflow of `now - last_fetch`
(a clock set before `last_fetch`) is not modelled. -/
def fetchLengthCalc (feed : FeedOption) (meta : FetchedMeta) (now : Nat) :
    Nat :=
  min feed.max_length
    (max ((now - meta.last_fetch + 1) / feed.interval * feed.fetch_length)
      feed.fetch_length)

/-- The persisted effects of one pipeline run: the list written to
`cache.json`, the channel rendered to `cache.xml`, the argument records
written to `args.json` (one per extractor invocation), the number of
retry-loop attempts, and the cache-load actions. -/
structure PipelineEffects where
  savedJson : List PseudoItem
  savedRss : PseudoChannel
  args : List ItemizerArg
  attempts : Nat
  cacheActions : List CacheAction
deriving DecidableEq, Repr

/-- Result of `fetch_items_return`: the effects plus the returned list. -/
structure PipelineOut where
  ret : List PseudoItem
  eff : PipelineEffects
deriving DecidableEq, Repr

/-- Embeds `FeedOption::fetch_items_return` (feeds.rs lines 324-417):
load the cache (salvage step on corruption), compute the quota, run the
retry loop over the extractor runner with the content-cleared cache as
`original`, then derive timestamps, append the cache, sort, trim,
persist `cache.json` and `cache.xml`, and return the final list. -/
def fetch_items_return_model (master : MasterConfig) (feed : FeedOption)
    (env : FetchEnv) (meta : FetchedMeta) (now : Nat) (cf : CacheFile)
    (fuel : Nat) : Option PipelineOut :=
  let loaded := loadCacheStep cf
  let existing := loaded.1
  let fl := fetchLengthCalc feed meta now
  let original := existing.map clearContent
  match retryLoopAux feed env original fl fuel master.max_retries 0 with
  | none => none
  | some (items0, args, att) =>
    let items := mergeTrim env.parse feed items0 existing
    some ⟨items,
      ⟨items, feed.channel.with_items items, args, att, loaded.2⟩⟩

/-- Embeds `FeedOption::fetch_items_noreturn` (feeds.rs lines 420-510):
the same body as `fetch_items_return` (the source duplicates it), but
nothing is returned to the caller. -/
def fetch_items_noreturn_model (master : MasterConfig) (feed : FeedOption)
    (env : FetchEnv) (meta : FetchedMeta) (now : Nat) (cf : CacheFile)
    (fuel : Nat) : Option PipelineEffects :=
  let loaded := loadCacheStep cf
  let existing := loaded.1
  let fl := fetchLengthCalc feed meta now
  let original := existing.map clearContent
  match retryLoopAux feed env original fl fuel master.max_retries 0 with
  | none => none
  | some (items0, args, att) =>
    let items := mergeTrim env.parse feed items0 existing
    some ⟨items, feed.channel.with_items items, args, att, loaded.2⟩

/-- Abstract outcomes of the fallible steps of one Read API call:
loading `meta.json`, the pipeline call (`fetch_items_return` /
`fetch_items_noreturn`; its error covers IO failures inside the
pipeline), saving `meta.json` (a failed save persists nothing), and the
final load of the cached object or string. -/
structure ReadEnv where
  metaLoad : Res FetchedMeta
  pipeline : Res Unit
  metaSave : Bool
  cacheLoad : Res Unit
deriving Repr

/-- Embeds `FeedOption::lazy_fetch` (feeds.rs lines 262-289), with the
returned channel abstracted to success/failure; the second component
lists the `FetchedMeta` values successfully persisted to `meta.json`.
When outdated: pipeline, then `fetched(); requested();` and save, then
return the in-memory channel (no cache re-read).  Otherwise:
`requested()`, save, then load `cache.json`.  Every `?` propagates. -/
def lazyObjModel (feed : FeedOption) (now : Nat) (env : ReadEnv) :
    Res Unit × List FetchedMeta :=
  match env.metaLoad with
  | .err => (.err, [])
  | .ok meta =>
    if feed.outdated meta now then
      match env.pipeline with
      | .err => (.err, [])
      | .ok _ =>
        let m2 := metaRequested now (metaFetched now meta)
        if env.metaSave then (.ok (), [m2]) else (.err, [])
    else
      let m2 := metaRequested now meta
      if env.metaSave then
        match env.cacheLoad with
        | .ok _ => (.ok (), [m2])
        | .err => (.err, [m2])
      else (.err, [])

/-- Embeds `FeedOption::lazy_fetch_rss` and `lazy_fetch_json` (feeds.rs
lines 154-182 and 208-236; the two differ only in which cache file path
they read).  When outdated: pipeline, `fetched(); requested();`, save,
then load and return the cached string; otherwise `requested()`, save,
load. -/
def lazyStrModel (feed : FeedOption) (now : Nat) (env : ReadEnv) :
    Res Unit × List FetchedMeta :=
  match env.metaLoad with
  | .err => (.err, [])
  | .ok meta =>
    if feed.outdated meta now then
      match env.pipeline with
      | .err => (.err, [])
      | .ok _ =>
        let m2 := metaRequested now (metaFetched now meta)
        if env.metaSave then
          match env.cacheLoad with
          | .ok _ => (.ok (), [m2])
          | .err => (.err, [m2])
        else (.err, [])
    else
      let m2 := metaRequested now meta
      if env.metaSave then
        match env.cacheLoad with
        | .ok _ => (.ok (), [m2])
        | .err => (.err, [m2])
      else (.err, [])

/-- Embeds `FeedOption::force_fetch` (feeds.rs lines 292-306): pipeline,
`fetched(); requested();`, save, return the in-memory channel. -/
def forceObjModel (feed : FeedOption) (now : Nat) (env : ReadEnv) :
    Res Unit × List FetchedMeta :=
  match env.metaLoad with
  | .err => (.err, [])
  | .ok meta =>
    match env.pipeline with
    | .err => (.err, [])
    | .ok _ =>
      let m2 := metaRequested now (metaFetched now meta)
      if env.metaSave then (.ok (), [m2]) else (.err, [])

/-- Embeds `FeedOption::force_fetch_rss` and `force_fetch_json`
(feeds.rs lines 185-205 and 239-259): pipeline, `fetched();
requested();`, save, then load and return the cached string. -/
def forceStrModel (feed : FeedOption) (now : Nat) (env : ReadEnv) :
    Res Unit × List FetchedMeta :=
  match env.metaLoad with
  | .err => (.err, [])
  | .ok meta =>
    match env.pipeline with
    | .err => (.err, [])
    | .ok _ =>
      let m2 := metaRequested now (metaFetched now meta)
      if env.metaSave then
        match env.cacheLoad with
        | .ok _ => (.ok (), [m2])
        | .err => (.err, [m2])
      else (.err, [])

/-- The four Read API operations, {lazy, force} x {object, string}. -/
inductive ReadOp where
  | lazyObj
  | lazyStr
  | forceObj
  | forceStr
deriving DecidableEq, Repr

/-- Dispatch to the four Read API embeddings. -/
def runReadOp : ReadOp → FeedOption → Nat → ReadEnv →
    Res Unit × List FetchedMeta
  | .lazyObj => lazyObjModel
  | .lazyStr => lazyStrModel
  | .forceObj => forceObjModel
  | .forceStr => forceStrModel

/-- Lock-relevant actions a fetch driver performs, in program order. -/
inductive LockAction where
  | acquire (label : String)
  | pipelineRun
  | release (label : String)
deriving DecidableEq, Repr

/-- The code paths that can run the Fetch Pipeline: the scheduler worker
(`Feeds::start_loop`) and the six Read API functions (`lazy_fetch`,
`lazy_fetch_rss`, `lazy_fetch_json` run the pipeline only when the feed
is outdated; the `force_*` variants always do). -/
inductive FetchDriver where
  | scheduler
  | lazyObject (outdated : Bool)
  | lazyRss (outdated : Bool)
  | lazyJson (outdated : Bool)
  | forceObject
  | forceRss
  | forceJson
deriving DecidableEq, Repr

/-- The lock actions each driver performs, read off the source: only
`Feeds::start_loop` (feeds.rs lines 74-83) wraps its pipeline call in
`take_lock!(LOCKS, feed.label.clone())` (released when the guard drops
after the meta save); none of the six Read API functions (feeds.rs lines
154-306) mentions `LOCKS` or `take_lock!` at all. -/
def driverTrace (d : FetchDriver) (feed : FeedOption) : List LockAction :=
  match d with
  | .scheduler => [.acquire feed.label, .pipelineRun, .release feed.label]
  | .lazyObject o => if o then [.pipelineRun] else []
  | .lazyRss o => if o then [.pipelineRun] else []
  | .lazyJson o => if o then [.pipelineRun] else []
  | .forceObject => [.pipelineRun]
  | .forceRss => [.pipelineRun]
  | .forceJson => [.pipelineRun]

/-- Whether every `pipelineRun` in the trace occurs while some per-label
lock is held (second argument: the lock currently held). -/
def pipelineUnderLock : List LockAction → Option String → Bool
  | [], _ => true
  | .acquire l :: r, _ => pipelineUnderLock r (some l)
  | .release _ :: r, _ => pipelineUnderLock r none
  | .pipelineRun :: r, h => h.isSome && pipelineUnderLock r h

/-- The labels a trace acquires, in order. -/
def acquiredLabels : List LockAction → List String
  | [] => []
  | .acquire l :: r => l :: acquiredLabels r
  | _ :: r => acquiredLabels r

/-- The recursive extractor runner returns for some amount of fuel. -/
def recurseTerminates (feed : FeedOption) (env : FetchEnv)
    (items original : List PseudoItem) (url : String) (fl k : Nat) : Prop :=
  ∃ fuel out, fetchItemsRecurse feed env fuel items original url fl k = some out

/-- Whether every `preexists` element of every argument record of a run
has its content cleared (the universally quantified form of the spec's
sentence, as a decidable check). -/
def allPreexistsCleared (o : PipelineOut) : Bool :=
  o.eff.args.all fun a => a.preexists.all fun it => it.content == none

/-- The concatenation of the item lists of `n` consecutive extractor
replies starting at hop `k`, exactly as the environment supplied them
(content untouched).  Within one attempt this is the buffer the source
has accumulated after `n` hops from an empty start. -/
def concatReplies (env : FetchEnv) : Nat → Nat → List PseudoItem
  | _, 0 => []
  | k, n + 1 =>
    match env.extract k with
    | .ok (its, _) => its ++ concatReplies env (k + 1) n
    | .err => []

/-- The attempts the retry loop made, in order: each pair holds the hop
index at which the attempt started and the extractor runner's output for
that attempt (which the source starts from an empty buffer at the feed's
origin); consecutive attempts resume at the previous attempt's next hop
index. -/
def attemptsChain (feed : FeedOption) (env : FetchEnv)
    (original : List PseudoItem) (fl fuel : Nat) :
    Nat → List (Nat × RecurseOut) → Prop
  | _, [] => True
  | k, (k0, out) :: rest =>
    k0 = k ∧
    fetchItemsRecurse feed env fuel [] original feed.origin fl k = some out ∧
    attemptsChain feed env original fl fuel out.next rest

/-! Concrete fixtures used by counterexamples and witnesses. -/

/-- A fresh default metadata record (unix time 0 everywhere). -/
def meta0 : FetchedMeta := {}

/-- Item with only a title. -/
def itA : PseudoItem := { title := some "A" }

/-- A second item with only a title. -/
def itB : PseudoItem := { title := some "B" }

/-- An item carrying page content, as an extractor may emit. -/
def itX : PseudoItem := { title := some "C", content := some "X" }

/-- Environment in which every external interaction fails. -/
def envNone : FetchEnv := ⟨fun _ => .err, fun _ => .err, fun _ => none⟩

/-- Environment whose extractor always replies with one item and no
continuation. -/
def envSingleA : FetchEnv :=
  ⟨fun _ => .ok "", fun _ => .ok ([itA], none), fun _ => none⟩

/-- Master config with zero retries (the retry loop body never runs). -/
def mr0Master : MasterConfig := { max_retries := 0 }

/-- Master config with a single retry. -/
def mr1Master : MasterConfig := { max_retries := 1 }

/-- A feed with sorting off and the HTTP GET disabled. -/
def plainFeed : FeedOption := { sort := false, max_length := 5, fetch := false }

/-- The expected effects of a zero-retry refresh of `plainFeed` over a
cache holding `itA`. -/
def c1WitOut : PipelineEffects :=
  ⟨[itA], plainFeed.channel.with_items [itA], [], 0, []⟩

/-- A default feed, for the lock-trace counterexample. -/
def defFeed : FeedOption := {}

/-- Feed for the retry-bound counterexample: quota 2, cap 2. -/
def c5CexFeed : FeedOption :=
  { fetch := false, max_length := 2, fetch_length := 2, sort := false }

/-- Environment replying with a continuation on the first hop and a
final item on the second. -/
def c5CexEnv : FetchEnv :=
  ⟨fun _ => .ok "",
    fun k => if k = 0 then .ok ([itA], some "u2") else .ok ([itB], none),
    fun _ => none⟩

/-- The expected outcome of the single-attempt refresh of `plainFeed`
with `envSingleA` over an empty cache. -/
def c5WitOut : PipelineOut :=
  ⟨[itA], ⟨[itA], plainFeed.channel.with_items [itA],
    [⟨plainFeed.origin, none, [], 5, plainFeed⟩], 1, []⟩⟩

/-- Feed for the non-termination counterexample (cap 3, no GET). -/
def c6CexFeed : FeedOption := { fetch := false, max_length := 3 }

/-- Environment whose extractor always replies with zero items and a
continuation URL. -/
def c6CexEnv : FetchEnv :=
  ⟨fun _ => .ok "", fun _ => .ok ([], some "u"), fun _ => none⟩

/-- Feed for the preexists counterexample: large cap so the continuation
is followed. -/
def c7CexFeed : FeedOption :=
  { fetch := false, max_length := 10, fetch_length := 5, sort := false }

/-- Environment whose first reply carries an item with page content and
a continuation. -/
def c7CexEnv : FetchEnv :=
  ⟨fun _ => .ok "",
    fun k => if k = 0 then .ok ([itX], some "u2") else .ok ([], none),
    fun _ => none⟩

/-- The expected outcome of a one-attempt refresh of `plainFeed` with
`envSingleA` over a cache holding `itB`. -/
def c7WitOut : PipelineOut :=
  ⟨[itA, itB], ⟨[itA, itB], plainFeed.channel.with_items [itA, itB],
    [⟨plainFeed.origin, none, [itB], 5, plainFeed⟩], 1, []⟩⟩

/-- The single argument record of the `c7WitOut` run. -/
def c7WitArg : ItemizerArg := ⟨plainFeed.origin, none, [itB], 5, plainFeed⟩

/-- Feed with a short interval, so it is outdated at time 100. -/
def c9CexFeed : FeedOption := { interval := 10 }

/-- Read environment in which the refresh attempt fails. -/
def c9CexEnv : ReadEnv := ⟨.ok meta0, .err, true, .ok ()⟩

/-- Read environment in which every step succeeds. -/
def c9WitEnv : ReadEnv := ⟨.ok meta0, .ok (), true, .ok ()⟩

/-- Parser fixture recognising the single string "d" as 5 seconds. -/
def c2Parse : String → Option Int := fun s => if s = "d" then some 5 else none

/-- Item fixture with a parsable publication date and no timestamp. -/
def c2Item : PseudoItem := { pub_date := some "d" }

/-- Item with neither link nor title (identity counterfixture). -/
def emptyIt : PseudoItem := {}

/-! Helper lemmas. -/

theorem optLe_refl (a : Option Nat) : optLe a a = true := by
  cases a <;> simp [optLe]

theorem optLe_trans {a b c : Option Nat} (h1 : optLe a b = true)
    (h2 : optLe b c = true) : optLe a c = true := by
  cases a <;> cases b <;> cases c <;> simp_all [optLe] <;> omega

theorem optLe_total (a b : Option Nat) : (optLe a b || optLe b a) = true := by
  cases a <;> cases b <;> simp [optLe] <;> omega

theorem itemLe_trans : ∀ a b c : PseudoItem,
    itemLe a b → itemLe b c → itemLe a c := by
  intro a b c h1 h2
  exact optLe_trans h2 h1

theorem itemLe_total : ∀ a b : PseudoItem, itemLe a b || itemLe b a := by
  intro a b
  exact optLe_total b.timestamp a.timestamp

theorem trim_length_le (n : Nat) (l : List PseudoItem) :
    (if n < l.length then l.take n else l).length ≤ n := by
  split
  · simp [List.length_take]
  · omega

theorem mergeTrim_length (p : String → Option Int) (feed : FeedOption)
    (fr ex : List PseudoItem) :
    (mergeTrim p feed fr ex).length ≤ feed.max_length := by
  simp only [mergeTrim]
  exact trim_length_le _ _

theorem mergeTrim_pairwise (p : String → Option Int) (feed : FeedOption)
    (fr ex : List PseudoItem) (hs : feed.sort = true) :
    (mergeTrim p feed fr ex).Pairwise fun a b => itemLe a b = true := by
  have hsorted : ((mergedOf p fr ex).mergeSort itemLe).Pairwise
      fun a b => itemLe a b = true :=
    List.sorted_mergeSort itemLe_trans itemLe_total (mergedOf p fr ex)
  simp only [mergeTrim]
  rw [if_pos hs]
  split
  · exact hsorted.sublist (List.take_sublist _ _)
  · exact hsorted

theorem filter_ts_pairwise (l : List PseudoItem) (t : Option Nat) :
    (l.filter fun i => decide (i.timestamp = t)).Pairwise
      fun a b => itemLe a b = true := by
  refine List.pairwise_of_forall_mem_list ?_
  intro a ha b hb
  have hat : a.timestamp = t := by
    have := (List.mem_filter.mp ha).2
    exact of_decide_eq_true this
  have hbt : b.timestamp = t := by
    have := (List.mem_filter.mp hb).2
    exact of_decide_eq_true this
  show optLe b.timestamp a.timestamp = true
  rw [hat, hbt]
  exact optLe_refl t

theorem filter_mergeSort_eq (l : List PseudoItem) (t : Option Nat) :
    ((l.mergeSort itemLe).filter fun i => decide (i.timestamp = t))
      = l.filter fun i => decide (i.timestamp = t) := by
  have hsub : List.Sublist (l.filter fun i => decide (i.timestamp = t))
      (l.mergeSort itemLe) :=
    List.sublist_mergeSort itemLe_trans itemLe_total
      (filter_ts_pairwise l t) (List.filter_sublist l)
  have hsub2 := hsub.filter fun i => decide (i.timestamp = t)
  rw [List.filter_filter] at hsub2
  simp only [Bool.and_self] at hsub2
  have hperm : List.Perm
      ((l.mergeSort itemLe).filter fun i => decide (i.timestamp = t))
      (l.filter fun i => decide (i.timestamp = t)) :=
    (List.mergeSort_perm l itemLe).filter _
  exact (hsub2.eq_of_length hperm.length_eq.symm).symm

theorem filter_take_prefix (p : PseudoItem → Bool) (n : Nat)
    (l : List PseudoItem) :
    ((l.take n).filter p) <+: l.filter p := by
  refine ⟨(l.drop n).filter p, ?_⟩
  rw [← List.filter_append, List.take_append_drop]

theorem mergeTrim_stable (p : String → Option Int) (feed : FeedOption)
    (fr ex : List PseudoItem) (hs : feed.sort = true) (t : Option Nat) :
    ((mergeTrim p feed fr ex).filter fun i => decide (i.timestamp = t))
      <+: ((mergedOf p fr ex).filter fun i => decide (i.timestamp = t)) := by
  simp only [mergeTrim]
  rw [if_pos hs, ← filter_mergeSort_eq (mergedOf p fr ex) t]
  split
  · exact filter_take_prefix _ _ _
  · exact List.prefix_refl _

theorem noreturn_model_shape {master : MasterConfig} {feed : FeedOption}
    {env : FetchEnv} {meta : FetchedMeta} {now : Nat} {cf : CacheFile}
    {fuel : Nat} {out : PipelineEffects}
    (h : fetch_items_noreturn_model master feed env meta now cf fuel
      = some out) :
    ∃ fresh args att,
      out = ⟨mergeTrim env.parse feed fresh (loadCacheStep cf).1,
        feed.channel.with_items
          (mergeTrim env.parse feed fresh (loadCacheStep cf).1),
        args, att, (loadCacheStep cf).2⟩ := by
  simp only [fetch_items_noreturn_model] at h
  split at h
  · exact absurd h (by simp)
  · rename_i items0 args att heq
    exact ⟨items0, args, att, (Option.some.inj h).symm⟩

theorem return_eff_eq_noreturn (master : MasterConfig) (feed : FeedOption)
    (env : FetchEnv) (meta : FetchedMeta) (now : Nat) (cf : CacheFile)
    (fuel : Nat) :
    Option.map PipelineOut.eff
        (fetch_items_return_model master feed env meta now cf fuel)
      = fetch_items_noreturn_model master feed env meta now cf fuel := by
  simp only [fetch_items_return_model, fetch_items_noreturn_model]
  split <;> rfl

theorem c6_diverge_aux :
    ∀ (fuel : Nat) (items : List PseudoItem) (url : String) (k : Nat),
    items.length < 3 →
    fetchItemsRecurse c6CexFeed c6CexEnv fuel items [] url 3 k = none := by
  intro fuel
  induction fuel with
  | zero => intro items url k h; rfl
  | succ n ih =>
    intro items url k h
    have hw : webstrStep c6CexFeed c6CexEnv k = .ok none := rfl
    have hx : c6CexEnv.extract k = .ok ([], some "u") := rfl
    have hm : c6CexFeed.max_length = 3 := rfl
    simp only [fetchItemsRecurse, hw, hx, hm, List.append_nil]
    rw [if_neg (by omega)]
    rw [ih items "u" (k + 1) h]

theorem c6_progress_aux (feed : FeedOption) (env : FetchEnv)
    (hne : ∀ k2 its c, env.extract k2 = .ok (its, c) → its ≠ []) :
    ∀ (fuel : Nat) (items original : List PseudoItem) (url : String)
      (fl k : Nat),
    feed.max_length - items.length < fuel →
    fetchItemsRecurse feed env fuel items original url fl k ≠ none := by
  intro fuel
  induction fuel with
  | zero => intro items original url fl k h; omega
  | succ n ih =>
    intro items original url fl k h hcontra
    simp only [fetchItemsRecurse] at hcontra
    split at hcontra
    · exact absurd hcontra (by simp)
    · split at hcontra
      · exact absurd hcontra (by simp)
      · split at hcontra
        · exact absurd hcontra (by simp)
        · split at hcontra
          · split at hcontra
            · rename_i newItems hlen contX c hx hscrut hrec
              have hnewne : newItems ≠ [] := hne k newItems (some c) hx
              have hone : 1 ≤ newItems.length := by
                cases newItems with
                | nil => exact absurd rfl hnewne
                | cons a l => simp
              have hlt : feed.max_length - (items ++ newItems).length < n := by
                simp only [List.length_append] at hlen ⊢
                omega
              exact absurd hrec (ih (items ++ newItems) original c fl (k + 1)
                hlt)
            · exact absurd hcontra (by simp)
          · exact absurd hcontra (by simp)

theorem recurse_args_le_one (feed : FeedOption) (env : FetchEnv)
    (hnc : ∀ k2 its c, env.extract k2 = .ok (its, c) → c = none)
    (fuel : Nat) (items original : List PseudoItem) (url : String)
    (fl k : Nat) (r : RecurseOut)
    (h : fetchItemsRecurse feed env fuel items original url fl k = some r) :
    r.args.length ≤ 1 := by
  cases fuel with
  | zero => exact absurd h (by simp [fetchItemsRecurse])
  | succ n =>
    simp only [fetchItemsRecurse] at h
    split at h
    · obtain rfl := (Option.some.inj h).symm
      simp
    · split at h
      · obtain rfl := (Option.some.inj h).symm
        simp
      · split at h
        · obtain rfl := (Option.some.inj h).symm
          simp
        · split at h
          · rename_i newItems hlen contX c hx
            exact absurd (hnc k newItems (some c) hx) (by simp)
          · obtain rfl := (Option.some.inj h).symm
            simp

theorem retry_attempts_le (feed : FeedOption) (env : FetchEnv)
    (original : List PseudoItem) (fl fuel : Nat) :
    ∀ (n k : Nat) (its : List PseudoItem) (args : List ItemizerArg)
      (att : Nat),
    retryLoopAux feed env original fl fuel n k = some (its, args, att) →
    att ≤ n := by
  intro n
  induction n with
  | zero =>
    intro k its args att h
    simp only [retryLoopAux] at h
    simp at h
    omega
  | succ m ih =>
    intro k its args att h
    simp only [retryLoopAux] at h
    split at h
    · exact absurd h (by simp)
    · split at h
      · simp at h
        omega
      · split at h
        · exact absurd h (by simp)
        · rename_i heq3
          simp at h
          have := ih _ _ _ _ heq3
          omega

theorem retry_args_le (feed : FeedOption) (env : FetchEnv)
    (hnc : ∀ k2 its c, env.extract k2 = .ok (its, c) → c = none)
    (original : List PseudoItem) (fl fuel : Nat) :
    ∀ (n k : Nat) (its : List PseudoItem) (args : List ItemizerArg)
      (att : Nat),
    retryLoopAux feed env original fl fuel n k = some (its, args, att) →
    args.length ≤ n := by
  intro n
  induction n with
  | zero =>
    intro k its args att h
    simp only [retryLoopAux] at h
    simp at h
    obtain ⟨-, h2, -⟩ := h
    simp [← h2]
  | succ m ih =>
    intro k its args att h
    simp only [retryLoopAux] at h
    split at h
    · exact absurd h (by simp)
    · rename_i out hrec
      have hout := recurse_args_le_one feed env hnc fuel [] original
        feed.origin fl k out hrec
      split at h
      · simp at h
        obtain ⟨-, h2, -⟩ := h
        rw [← h2]
        omega
      · split at h
        · exact absurd h (by simp)
        · rename_i heq3
          simp at h
          obtain ⟨-, h2, -⟩ := h
          have := ih _ _ _ _ heq3
          rw [← h2]
          simp only [List.length_append]
          omega

theorem recurse_preexists_strong (feed : FeedOption) (env : FetchEnv) :
    ∀ (fuel : Nat) (items original : List PseudoItem) (url : String)
      (fl k : Nat) (r : RecurseOut),
    fetchItemsRecurse feed env fuel items original url fl k = some r →
    ∀ (i : Nat) (hi : i < r.args.length),
      (r.args.get ⟨i, hi⟩).preexists
        = original ++ items ++ concatReplies env k i := by
  intro fuel
  induction fuel with
  | zero =>
    intro items original url fl k r h
    exact absurd h (by simp [fetchItemsRecurse])
  | succ n ih =>
    intro items original url fl k r h
    simp only [fetchItemsRecurse] at h
    split at h
    · obtain rfl := (Option.some.inj h).symm
      intro i hi
      exact absurd hi (by simp)
    · split at h
      · obtain rfl := (Option.some.inj h).symm
        intro i hi
        cases i with
        | zero => simp [concatReplies]
        | succ j =>
          simp at hi
      · split at h
        · obtain rfl := (Option.some.inj h).symm
          intro i hi
          cases i with
          | zero => simp [concatReplies]
          | succ j =>
            simp at hi
        · split at h
          · split at h
            · exact absurd h (by simp)
            · rename_i newItems hlenN contO contC hx hscrut out2 hrec
              obtain rfl := (Option.some.inj h).symm
              intro i hi
              cases i with
              | zero => simp [concatReplies]
              | succ j =>
                have hj : j < out2.args.length := by
                  simp at hi
                  omega
                have hrecj := ih (items ++ newItems) original contC fl (k + 1)
                  out2 hrec j hj
                simp only [List.get_cons_succ]
                rw [hrecj]
                simp only [concatReplies, hx]
                simp [List.append_assoc]
          · obtain rfl := (Option.some.inj h).symm
            intro i hi
            cases i with
            | zero => simp [concatReplies]
            | succ j =>
              simp at hi

theorem retry_blocks (feed : FeedOption) (env : FetchEnv)
    (original : List PseudoItem) (fl fuel : Nat) :
    ∀ (n k : Nat) (its : List PseudoItem) (args : List ItemizerArg)
      (att : Nat),
    retryLoopAux feed env original fl fuel n k = some (its, args, att) →
    ∃ outs : List (Nat × RecurseOut),
      attemptsChain feed env original fl fuel k outs ∧
      args = (outs.map fun p => p.2.args).flatten := by
  intro n
  induction n with
  | zero =>
    intro k its args att h
    simp only [retryLoopAux] at h
    simp at h
    obtain ⟨-, h2, -⟩ := h
    exact ⟨[], trivial, by simp [h2]⟩
  | succ m ih =>
    intro k its args att h
    simp only [retryLoopAux] at h
    split at h
    · exact absurd h (by simp)
    · rename_i out hrec
      split at h
      · simp at h
        obtain ⟨-, h2, -⟩ := h
        exact ⟨[(k, out)], ⟨rfl, hrec, trivial⟩, by simp [← h2]⟩
      · split at h
        · exact absurd h (by simp)
        · rename_i heq3
          simp at h
          obtain ⟨-, h2, -⟩ := h
          obtain ⟨outs3, hchain3, hargs3⟩ := ih _ _ _ _ heq3
          exact ⟨(k, out) :: outs3, ⟨rfl, hrec, hchain3⟩,
            by simp [← h2, hargs3]⟩

theorem attemptsChain_mem (feed : FeedOption) (env : FetchEnv)
    (original : List PseudoItem) (fl fuel : Nat) :
    ∀ (outs : List (Nat × RecurseOut)) (k : Nat),
    attemptsChain feed env original fl fuel k outs →
    ∀ p ∈ outs,
      fetchItemsRecurse feed env fuel [] original feed.origin fl p.1
        = some p.2 := by
  intro outs
  induction outs with
  | nil =>
    intro k _ p hp
    exact absurd hp (by simp)
  | cons q rest ih =>
    intro k hchain p hp
    obtain ⟨k0, out⟩ := q
    obtain ⟨hk, hrec, hrest⟩ := hchain
    rcases List.mem_cons.mp hp with rfl | hmem
    · rw [hk]
      exact hrec
    · exact ih out.next hrest p hmem

/-! Claim theorems. -/

/-- C1: for every feed and every refresh that completes (scheduler path
`fetch_items_noreturn` or Read-API path `fetch_items_return`), the item
list written to `cache.json` has length at most `max_length`; when
`feed.sort` every adjacent pair is non-increasing in timestamp with
absent timestamps last (`itemLe`), and the sort is stable: for every
timestamp value, the equal-timestamp items of the written list form a
prefix of the equal-timestamp items of the pre-sort merged list, in
their original relative order. -/
theorem c1_cap_order_stable (master : MasterConfig) (feed : FeedOption)
    (env : FetchEnv) (meta : FetchedMeta) (now : Nat) (cf : CacheFile)
    (fuel : Nat) (out : PipelineEffects)
    (h : fetch_items_noreturn_model master feed env meta now cf fuel = some out
      ∨ Option.map PipelineOut.eff
          (fetch_items_return_model master feed env meta now cf fuel)
        = some out) :
    out.savedJson.length ≤ feed.max_length ∧
    (feed.sort = true →
      out.savedJson.Chain' fun a b => itemLe a b = true) ∧
    ∃ fresh,
      out.savedJson = mergeTrim env.parse feed fresh (loadCacheStep cf).1 ∧
      (feed.sort = true → ∀ t : Option Nat,
        (out.savedJson.filter fun i => decide (i.timestamp = t)) <+:
          ((mergedOf env.parse fresh (loadCacheStep cf).1).filter
            fun i => decide (i.timestamp = t))) := by
  have hn : fetch_items_noreturn_model master feed env meta now cf fuel
      = some out := by
    rcases h with h | h
    · exact h
    · rw [← return_eff_eq_noreturn master feed env meta now cf fuel]
      exact h
  obtain ⟨fresh, args, att, rfl⟩ := noreturn_model_shape hn
  exact ⟨mergeTrim_length _ _ _ _,
    fun hs => (mergeTrim_pairwise _ _ _ _ hs).chain',
    fresh, rfl, fun hs t => mergeTrim_stable _ _ _ _ hs t⟩

/-- C1 witness: a concrete zero-retry refresh over a one-item cache. -/
theorem c1_witness : c1WitOut.savedJson.length ≤ plainFeed.max_length :=
  (c1_cap_order_stable mr0Master plainFeed envNone meta0 0 (.good [itA]) 1
    c1WitOut (Or.inl rfl)).1

/-- C2: on every refresh, before sorting and trimming, the merged list
is exactly the derived fresh items followed by the existing cache — same
total length (no de-duplication), fresh order preserved, existing items
untouched — and the timestamp derivation sets a missing timestamp from a
parsable RFC-2822 `pub_date` (stored with the source's `as u64` cast)
and changes nothing otherwise. -/
theorem c2_merge_derive (parse : String → Option Int)
    (fresh existing : List PseudoItem) :
    mergedOf parse fresh existing
        = fresh.map (deriveTimestamp parse) ++ existing ∧
    (mergedOf parse fresh existing).length
        = fresh.length + existing.length ∧
    (mergedOf parse fresh existing).take fresh.length
        = fresh.map (deriveTimestamp parse) ∧
    (mergedOf parse fresh existing).drop fresh.length = existing ∧
    (∀ it : PseudoItem, it.timestamp.isSome = true →
      deriveTimestamp parse it = it) ∧
    (∀ it : PseudoItem, it.timestamp = none → it.pub_date = none →
      deriveTimestamp parse it = it) ∧
    (∀ (it : PseudoItem) (pd : String), it.timestamp = none →
      it.pub_date = some pd → parse pd = none →
      deriveTimestamp parse it = it) ∧
    (∀ (it : PseudoItem) (pd : String) (d : Int), it.timestamp = none →
      it.pub_date = some pd → parse pd = some d →
      deriveTimestamp parse it
        = { it with timestamp := some (u64OfInt d) }) := by
  refine ⟨rfl, by simp [mergedOf], ?_, ?_, ?_, ?_, ?_, ?_⟩
  · exact List.take_left' (by simp)
  · exact List.drop_left' (by simp)
  · intro it h
    simp [deriveTimestamp, h]
  · intro it h1 h2
    simp [deriveTimestamp, h1, h2]
  · intro it pd h1 h2 h3
    simp [deriveTimestamp, h1, h2, h3]
  · intro it pd d h1 h2 h3
    simp [deriveTimestamp, h1, h2, h3]

/-- C2 witness: a concrete item whose `pub_date` parses as 5 seconds. -/
theorem c2_witness :
    deriveTimestamp c2Parse c2Item = { c2Item with timestamp := some 5 } :=
  (c2_merge_derive c2Parse [] []).2.2.2.2.2.2.2 c2Item "d" 5 rfl rfl rfl

/-- C8: the two pipeline entry points have identical side effects: on the
same inputs they produce the same `cache.json` list, the same rendered
channel, the same argument records and the same attempt count; the
return variant additionally returns exactly the persisted list. -/
theorem c8_entry_points_equal (master : MasterConfig) (feed : FeedOption)
    (env : FetchEnv) (meta : FetchedMeta) (now : Nat) (cf : CacheFile)
    (fuel : Nat) :
    Option.map PipelineOut.eff
        (fetch_items_return_model master feed env meta now cf fuel)
      = fetch_items_noreturn_model master feed env meta now cf fuel ∧
    Option.map PipelineOut.ret
        (fetch_items_return_model master feed env meta now cf fuel)
      = Option.map PipelineEffects.savedJson
          (fetch_items_noreturn_model master feed env meta now cf fuel) := by
  refine ⟨return_eff_eq_noreturn master feed env meta now cf fuel, ?_⟩
  simp only [fetch_items_return_model, fetch_items_noreturn_model]
  split <;> rfl

/-- C3 counterexample: `force_fetch` runs the Fetch Pipeline and its
trace holds no lock while doing so — the Read API entry points never
touch the per-label lock registry, so two concurrent pipeline
invocations on the same label via the Read API do not serialise. -/
theorem c3_counterexample :
    LockAction.pipelineRun ∈ driverTrace .forceObject defFeed ∧
    pipelineUnderLock (driverTrace .forceObject defFeed) none = false := by
  decide

/-- C3 amended: only the scheduler worker holds the per-label lock
around its pipeline run, and it acquires exactly its own feed's label;
every Read API driver acquires no lock at all. -/
theorem c3_amended (feed : FeedOption) :
    pipelineUnderLock (driverTrace .scheduler feed) none = true ∧
    acquiredLabels (driverTrace .scheduler feed) = [feed.label] ∧
    ∀ d : FetchDriver, d ≠ .scheduler →
      acquiredLabels (driverTrace d feed) = [] := by
  refine ⟨rfl, rfl, ?_⟩
  intro d hd
  cases d with
  | scheduler => exact absurd rfl hd
  | lazyObject o => cases o <;> rfl
  | lazyRss o => cases o <;> rfl
  | lazyJson o => cases o <;> rfl
  | forceObject => rfl
  | forceRss => rfl
  | forceJson => rfl

/-- C3 witness: the amended theorem at the default feed and the
`force_fetch` driver. -/
theorem c3_witness : acquiredLabels (driverTrace .forceObject defFeed) = [] :=
  (c3_amended defFeed).2.2 .forceObject (by decide)

/-- C4: when `cache.json` exists but fails to deserialize, the code only
logs (the printed message claims the file was moved, but no rename
happens — `renameCorrupt` never appears in the code's action list, while
the spec's salvage step requires it), and the refresh then completes
from an empty cache, whose persist step overwrites `cache.json`. -/
theorem c4_code_eval :
    loadCacheStep .corrupt = ([], [.logCorrupt]) ∧
    CacheAction.renameCorrupt ∉ (loadCacheStep .corrupt).2 ∧
    loadCacheStepSpec .corrupt = ([], [.renameCorrupt]) ∧
    fetch_items_noreturn_model mr0Master plainFeed envNone meta0 0 .corrupt 1
      = some ⟨[], plainFeed.channel.with_items [], [], 0, [.logCorrupt]⟩ :=
  ⟨rfl, by decide, rfl, rfl⟩

/-- C9 counterexample: a lazy string fetch on an outdated feed whose
refresh attempt fails returns the error without persisting anything —
`last_requested` is not updated on this invocation although a refresh
was attempted. -/
theorem c9_counterexample :
    runReadOp .lazyStr c9CexFeed 100 c9CexEnv = (.err, []) ∧
    c9CexFeed.outdated meta0 100 = true := by
  exact ⟨rfl, rfl⟩

/-- C9 amended: every Read API invocation that returns success persists
exactly one `meta.json` record, and its `last_requested` equals the
current time; when the meta load, the refresh, or the meta save fails,
the error propagates and `last_requested` may not be persisted. -/
theorem c9_amended (op : ReadOp) (feed : FeedOption) (now : Nat)
    (env : ReadEnv) (h : (runReadOp op feed now env).1 = .ok ()) :
    (runReadOp op feed now env).2.map FetchedMeta.last_requested = [now] := by
  obtain ⟨ml, pl, ms, cl⟩ := env
  cases op <;> cases ml <;> cases pl <;> cases ms <;> cases cl <;>
    simp_all [runReadOp, lazyObjModel, lazyStrModel, forceObjModel,
      forceStrModel, metaRequested, metaFetched] <;>
    split at h <;> simp_all [metaRequested, metaFetched]

/-- C9 witness: a successful forced string fetch at time 7 persists a
meta record with `last_requested = 7`. -/
theorem c9_witness :
    (runReadOp .forceStr c9CexFeed 7 c9WitEnv).2.map
      FetchedMeta.last_requested = [7] :=
  c9_amended .forceStr c9CexFeed 7 c9WitEnv rfl

/-- C10: the item identity predicate is not reflexive — an item with
neither link nor title is not identical to itself, nor to any other item
in either direction — and in general identity between two items holds
exactly when they share a present link or share a present title. -/
theorem c10_identity (i : PseudoItem) (h1 : i.link = none)
    (h2 : i.title = none) :
    pseudoItemEq i i = false ∧
    (∀ j : PseudoItem, pseudoItemEq i j = false ∧ pseudoItemEq j i = false) ∧
    (∀ a b : PseudoItem, pseudoItemEq a b = true ↔
      ((∃ l, a.link = some l ∧ b.link = some l) ∨
        (∃ t, a.title = some t ∧ b.title = some t))) := by
  refine ⟨by simp [pseudoItemEq, h1, h2], ?_, ?_⟩
  · intro j
    constructor
    · simp [pseudoItemEq, h1, h2]
    · cases hl : j.link <;> cases ht : j.title <;>
        simp [pseudoItemEq, h1, h2, hl, ht]
  · intro a b
    simp only [pseudoItemEq, Bool.or_eq_true, Bool.and_eq_true,
      decide_eq_true_eq, Option.isSome_iff_exists]
    constructor
    · rintro (⟨⟨l, hl⟩, heq⟩ | ⟨⟨t, ht⟩, heq⟩)
      · exact Or.inl ⟨l, hl, by rw [← heq, hl]⟩
      · exact Or.inr ⟨t, ht, by rw [← heq, ht]⟩
    · rintro (⟨l, hal, hbl⟩ | ⟨t, hat, hbt⟩)
      · exact Or.inl ⟨⟨l, hal⟩, by rw [hal, hbl]⟩
      · exact Or.inr ⟨⟨t, hat⟩, by rw [hat, hbt]⟩

/-- C10 witness: the all-absent item is not identical to itself. -/
theorem c10_witness : pseudoItemEq emptyIt emptyIt = false :=
  (c10_identity emptyIt rfl rfl).1

/-- C5 counterexample: with `max_retries = 1`, a single attempt that
follows one continuation invokes the extractor twice — the total
invocation count exceeds `max_retries` when continuation hops occur. -/
theorem c5_counterexample :
    Option.map (fun o => o.eff.args.length)
        (fetch_items_return_model mr1Master c5CexFeed c5CexEnv meta0 0
          .missing 5)
      = some 2 ∧
    mr1Master.max_retries = 1 := ⟨rfl, rfl⟩

/-- C5 amended: per pipeline run the retry loop makes at most
`max_retries` attempts, and the extractor invocation count is bounded by
`max_retries` when no reply carries a continuation; continuation hops
add further invocations within an attempt, so the overall count is not
bounded by `max_retries` alone. -/
theorem c5_amended (master : MasterConfig) (feed : FeedOption)
    (env : FetchEnv) (meta : FetchedMeta) (now : Nat) (cf : CacheFile)
    (fuel : Nat) (out : PipelineOut)
    (h : fetch_items_return_model master feed env meta now cf fuel
      = some out) :
    out.eff.attempts ≤ master.max_retries ∧
    ((∀ k2 its c, env.extract k2 = .ok (its, c) → c = none) →
      out.eff.args.length ≤ master.max_retries) := by
  simp only [fetch_items_return_model] at h
  split at h
  · exact absurd h (by simp)
  · rename_i items0 args att heq
    obtain rfl := (Option.some.inj h).symm
    exact ⟨retry_attempts_le feed env _ _ fuel master.max_retries 0 items0
        args att heq,
      fun hnc => retry_args_le feed env hnc _ _ fuel master.max_retries 0
        items0 args att heq⟩

/-- C5 witness: a continuation-free run stays within the retry bound. -/
theorem c5_witness : c5WitOut.eff.args.length ≤ mr1Master.max_retries :=
  (c5_amended mr1Master plainFeed envSingleA meta0 0 .missing 2 c5WitOut
      rfl).2
    (by
      intro k its c h
      injection h with h2
      injection h2 with h3 h4
      exact h4.symm)

/-- C6 counterexample: an extractor that always replies with zero items
and a continuation URL never reaches the cap, so the recursion does not
return for any amount of fuel — the continuation-following recursion is
not bounded by the cap test for all reply sequences. -/
theorem c6_counterexample :
    ¬ recurseTerminates c6CexFeed c6CexEnv [] [] c6CexFeed.origin 3 0 := by
  rintro ⟨fuel, out, hsome⟩
  rw [c6_diverge_aux fuel [] c6CexFeed.origin 0 (by decide)] at hsome
  exact Option.noConfusion hsome

/-- C6 amended: when every successful extractor reply contains at least
one item, the buffer grows on every continuation hop, so the recursion
returns within `max_length + 1` hops (the cap test bounds the depth);
without that assumption an all-empty continuation chain recurses
forever. -/
theorem c6_amended (feed : FeedOption) (env : FetchEnv)
    (original : List PseudoItem) (url : String) (fl k : Nat)
    (hne : ∀ k2 its c, env.extract k2 = .ok (its, c) → its ≠ []) :
    fetchItemsRecurse feed env (feed.max_length + 1) [] original url fl k
      ≠ none :=
  c6_progress_aux feed env hne (feed.max_length + 1) [] original url fl k
    (by omega)

/-- C6 witness: a nonempty-reply environment terminates within the
bound. -/
theorem c6_witness :
    fetchItemsRecurse c6CexFeed envSingleA (c6CexFeed.max_length + 1) [] []
      "u" 3 0 ≠ none :=
  c6_amended c6CexFeed envSingleA [] "u" 3 0
    (by
      intro k its c h
      injection h with h2
      injection h2 with h3 h4
      subst h3
      simp)

/-- C7 counterexample: the items accumulated during the run are passed
in `preexists` with their `content` intact — on the continuation hop the
argument record contains an item whose content is present, refuting
"content cleared on every element". -/
theorem c7_counterexample :
    Option.map allPreexistsCleared
        (fetch_items_return_model mr1Master c7CexFeed c7CexEnv meta0 0
          .missing 5)
      = some false ∧
    Option.map
        (fun o => o.eff.args.map fun a => a.preexists.map PseudoItem.content)
        (fetch_items_return_model mr1Master c7CexFeed c7CexEnv meta0 0
          .missing 5)
      = some [[], [some "X"]] := ⟨rfl, rfl⟩

/-- C7 amended: the run's argument records decompose into the retry
attempts (`attemptsChain`, each attempt starting from an empty buffer at
a known hop index), and the `i`-th record of the attempt starting at hop
`k0` has `preexists` equal to the content-cleared prior cache followed
by exactly `concatReplies env k0 i` — the verbatim concatenation of the
item lists the extractor supplied on the attempt's earlier hops, content
intact.  `content` is cleared on the prior-cache part only. -/
theorem c7_amended (master : MasterConfig) (feed : FeedOption)
    (env : FetchEnv) (meta : FetchedMeta) (now : Nat) (cf : CacheFile)
    (fuel : Nat) (out : PipelineOut)
    (h : fetch_items_return_model master feed env meta now cf fuel
      = some out) :
    (∀ it : PseudoItem, (clearContent it).content = none) ∧
    ∃ outs : List (Nat × RecurseOut),
      attemptsChain feed env ((loadCacheStep cf).1.map clearContent)
        (fetchLengthCalc feed meta now) fuel 0 outs ∧
      out.eff.args = (outs.map fun p => p.2.args).flatten ∧
      ∀ p ∈ outs, ∀ (i : Nat) (hi : i < p.2.args.length),
        (p.2.args.get ⟨i, hi⟩).preexists
          = (loadCacheStep cf).1.map clearContent
            ++ concatReplies env p.1 i := by
  refine ⟨fun it => rfl, ?_⟩
  simp only [fetch_items_return_model] at h
  split at h
  · exact absurd h (by simp)
  · rename_i items0 args att heq
    obtain rfl := (Option.some.inj h).symm
    obtain ⟨outs, hchain, hargs⟩ := retry_blocks feed env _ _ fuel
      master.max_retries 0 items0 args att heq
    refine ⟨outs, hchain, hargs, ?_⟩
    intro p hp i hi
    have hprec := attemptsChain_mem feed env _ _ fuel outs 0 hchain p hp
    have hpos := recurse_preexists_strong feed env fuel [] _ feed.origin _
      p.1 p.2 hprec i hi
    simpa using hpos

/-- C7 witness: a concrete run decomposes into one attempt whose
argument records carry the content-cleared cache followed by the
verbatim reply items. -/
theorem c7_witness :
    ∃ outs : List (Nat × RecurseOut),
      attemptsChain plainFeed envSingleA
        ((loadCacheStep (.good [itB])).1.map clearContent)
        (fetchLengthCalc plainFeed meta0 0) 2 0 outs ∧
      c7WitOut.eff.args = (outs.map fun p => p.2.args).flatten ∧
      ∀ p ∈ outs, ∀ (i : Nat) (hi : i < p.2.args.length),
        (p.2.args.get ⟨i, hi⟩).preexists
          = (loadCacheStep (.good [itB])).1.map clearContent
            ++ concatReplies envSingleA p.1 i :=
  (c7_amended mr1Master plainFeed envSingleA meta0 0 (.good [itB]) 2
    c7WitOut rfl).2

end Scrapyard
